import Mathlib

/-!
Shallow embedding of the IOTA SDK ledger-output model slice:
`BasicOutput` and its builder, the `TagFeature`, the `AliasAddress`
textual form, and the binary pack/unpack contract, together with the
collaborator types they use (unlock conditions, features, native tokens,
rent structure, protocol parameters).  Definitions follow
`src/sdk/src/types/block/output/basic.rs`,
`src/sdk/src/types/block/output/feature/tag.rs` and
`src/sdk/src/types/block/address/alias.rs`; collaborator code that is not
part of the provided sources is modelled from the specification and marked
as such in its doc comment.
-/

/-- A byte of the wire format. -/
abbrev Byte : Type := Fin 256

/-- Little-endian encoding of a natural number into exactly `k` bytes
(the fixed-width integer fields of the wire format; values too large for
the width are truncated modulo `2 ^ (8 * k)`, as machine-integer packing
would be). -/
def natToBytesLE : Nat → Nat → List Byte
  | 0, _ => []
  | k + 1, n => ⟨n % 256, Nat.mod_lt n (by omega)⟩ :: natToBytesLE k (n / 256)

/-- Little-endian decoding of a byte list back into a natural number. -/
def bytesToNatLE : List Byte → Nat
  | [] => 0
  | b :: t => b.val + 256 * bytesToNatLE t

theorem natToBytesLE_length (k n : Nat) : (natToBytesLE k n).length = k := by
  induction k generalizing n with
  | zero => rfl
  | succ k ih => simp [natToBytesLE, ih]

theorem bytesToNatLE_natToBytesLE (k n : Nat) :
    bytesToNatLE (natToBytesLE k n) = n % 2 ^ (8 * k) := by
  induction k generalizing n with
  | zero => simp [natToBytesLE, bytesToNatLE, Nat.mod_one]
  | succ k ih =>
    have h256 : (2 : Nat) ^ (8 * (k + 1)) = 256 * 2 ^ (8 * k) := by
      rw [Nat.mul_add, Nat.pow_add]; ring
    rw [natToBytesLE, bytesToNatLE, ih, h256, Nat.mod_mul]

theorem bytesToNatLE_lt (l : List Byte) : bytesToNatLE l < 2 ^ (8 * l.length) := by
  induction l with
  | nil => simp [bytesToNatLE]
  | cons b t ih =>
    have hb : b.val < 256 := b.isLt
    have h : (2 : Nat) ^ (8 * (t.length + 1)) = 256 * 2 ^ (8 * t.length) := by
      rw [Nat.mul_add, Nat.pow_add]; ring
    simp only [bytesToNatLE, List.length_cons, h]
    omega

/-- Read exactly `k` bytes off the front of a stream. -/
def readBytes (k : Nat) (s : List Byte) : Option (List Byte × List Byte) :=
  if k ≤ s.length then some (s.take k, s.drop k) else none

theorem readBytes_append (l r : List Byte) :
    readBytes l.length (l ++ r) = some (l, r) := by
  simp [readBytes, List.take_append, List.drop_append]

/-- Read a `k`-byte little-endian unsigned integer. -/
def readUIntLE (k : Nat) (s : List Byte) : Option (Nat × List Byte) :=
  match readBytes k s with
  | some (l, r) => some (bytesToNatLE l, r)
  | none => none

theorem readUIntLE_append (k n : Nat) (r : List Byte) (h : n < 2 ^ (8 * k)) :
    readUIntLE k (natToBytesLE k n ++ r) = some (n, r) := by
  have hlen := natToBytesLE_length k n
  have hread := readBytes_append (natToBytesLE k n) r
  rw [hlen] at hread
  simp [readUIntLE, hread, bytesToNatLE_natToBytesLE, Nat.mod_eq_of_lt h]

/-- Modelled from the spec: constraint sets "are deduplicated by variant
kind and kept in canonical sorted order"; the model of `BTreeSet` ordered
by kind is a list whose keys are strictly increasing.  `sortedFrom key lo l`
states that the keys of `l` are strictly increasing and at least `lo`. -/
def sortedFrom {α : Type} (key : α → Nat) (lo : Nat) : List α → Bool
  | [] => true
  | x :: t => decide (lo ≤ key x) && sortedFrom key (key x + 1) t

/-- Keys strictly increasing from anywhere. -/
def sortedByKey {α : Type} (key : α → Nat) (l : List α) : Bool :=
  sortedFrom key 0 l

/-- Modelled from the spec: builder `add` — "insert if absent, leave
existing entry of that kind untouched if already present"
(`BTreeSet::insert` under the by-kind order). -/
def insertByKey {α : Type} (key : α → Nat) (x : α) : List α → List α
  | [] => [x]
  | y :: t =>
    if key x < key y then x :: y :: t
    else if key x = key y then y :: t
    else y :: insertByKey key x t

/-- Modelled from the spec: builder `replace` — "insert or overwrite the
entry of that kind" (`BTreeSet::replace` under the by-kind order). -/
def replaceByKey {α : Type} (key : α → Nat) (x : α) : List α → List α
  | [] => [x]
  | y :: t =>
    if key x < key y then x :: y :: t
    else if key x = key y then x :: t
    else y :: replaceByKey key x t

/-- Look up the entry with key `k`, if any. -/
def findByKey {α : Type} (key : α → Nat) (k : Nat) : List α → Option α
  | [] => none
  | y :: t => if key y = k then some y else findByKey key k t

theorem sortedFrom_mono {α : Type} (key : α → Nat) (lo lo' : Nat) (l : List α)
    (h : sortedFrom key lo l = true) (hle : lo' ≤ lo) :
    sortedFrom key lo' l = true := by
  cases l with
  | nil => rfl
  | cons y t =>
    simp only [sortedFrom, Bool.and_eq_true, decide_eq_true_eq] at h ⊢
    exact ⟨by omega, h.2⟩

theorem sortedFrom_insertByKey {α : Type} (key : α → Nat) (x : α) (lo : Nat)
    (l : List α) (h : sortedFrom key lo l = true) (hx : lo ≤ key x) :
    sortedFrom key lo (insertByKey key x l) = true := by
  induction l generalizing lo with
  | nil => simp [insertByKey, sortedFrom, hx]
  | cons y t ih =>
    simp only [sortedFrom, Bool.and_eq_true, decide_eq_true_eq] at h
    by_cases h1 : key x < key y
    · simp only [insertByKey, if_pos h1, sortedFrom, Bool.and_eq_true, decide_eq_true_eq]
      refine ⟨hx, by omega, h.2⟩
    · by_cases h2 : key x = key y
      · simp only [insertByKey, if_neg h1, if_pos h2, sortedFrom, Bool.and_eq_true,
          decide_eq_true_eq]
        exact ⟨h.1, h.2⟩
      · simp only [insertByKey, if_neg h1, if_neg h2, sortedFrom, Bool.and_eq_true,
          decide_eq_true_eq]
        exact ⟨h.1, ih (key y + 1) h.2 (by omega)⟩

theorem sortedFrom_replaceByKey {α : Type} (key : α → Nat) (x : α) (lo : Nat)
    (l : List α) (h : sortedFrom key lo l = true) (hx : lo ≤ key x) :
    sortedFrom key lo (replaceByKey key x l) = true := by
  induction l generalizing lo with
  | nil => simp [replaceByKey, sortedFrom, hx]
  | cons y t ih =>
    simp only [sortedFrom, Bool.and_eq_true, decide_eq_true_eq] at h
    by_cases h1 : key x < key y
    · simp only [replaceByKey, if_pos h1, sortedFrom, Bool.and_eq_true, decide_eq_true_eq]
      exact ⟨hx, by omega, h.2⟩
    · by_cases h2 : key x = key y
      · simp only [replaceByKey, if_neg h1, if_pos h2, sortedFrom, Bool.and_eq_true,
          decide_eq_true_eq]
        exact ⟨by omega, h2 ▸ h.2⟩
      · simp only [replaceByKey, if_neg h1, if_neg h2, sortedFrom, Bool.and_eq_true,
          decide_eq_true_eq]
        exact ⟨h.1, ih (key y + 1) h.2 (by omega)⟩

theorem findByKey_lo {α : Type} (key : α → Nat) (k lo : Nat) (l : List α) (a : α)
    (hs : sortedFrom key lo l = true) (hf : findByKey key k l = some a) :
    lo ≤ k := by
  induction l generalizing lo with
  | nil => simp [findByKey] at hf
  | cons y t ih =>
    simp only [sortedFrom, Bool.and_eq_true, decide_eq_true_eq] at hs
    simp only [findByKey] at hf
    by_cases h : key y = k
    · omega
    · rw [if_neg h] at hf
      have := ih (key y + 1) hs.2 hf
      omega

theorem insertByKey_of_found {α : Type} (key : α → Nat) (x a : α) (lo : Nat)
    (l : List α) (hs : sortedFrom key lo l = true)
    (hf : findByKey key (key x) l = some a) :
    insertByKey key x l = l := by
  induction l generalizing lo with
  | nil => simp [findByKey] at hf
  | cons y t ih =>
    simp only [sortedFrom, Bool.and_eq_true, decide_eq_true_eq] at hs
    simp only [findByKey] at hf
    by_cases h2 : key x = key y
    · simp [insertByKey, h2]
    · have hne : ¬ key y = key x := fun hc => h2 hc.symm
      rw [if_neg hne] at hf
      have hgt : key y + 1 ≤ key x := findByKey_lo key (key x) (key y + 1) t a hs.2 hf
      simp only [insertByKey, if_neg (by omega : ¬ key x < key y), if_neg h2]
      rw [ih (key y + 1) hs.2 hf]

theorem findByKey_replaceByKey {α : Type} (key : α → Nat) (x : α) (l : List α) :
    findByKey key (key x) (replaceByKey key x l) = some x := by
  induction l with
  | nil => simp [replaceByKey, findByKey]
  | cons y t ih =>
    by_cases h1 : key x < key y
    · simp [replaceByKey, if_pos h1, findByKey]
    · by_cases h2 : key x = key y
      · simp [replaceByKey, if_neg h1, if_pos h2, findByKey]
      · have hne : ¬ key y = key x := fun hc => h2 hc.symm
        simp [replaceByKey, if_neg h1, if_neg h2, findByKey, hne, ih]

theorem sortedFrom_length_le {α : Type} (key : α → Nat) (n : Nat) (lo : Nat)
    (l : List α) (hs : sortedFrom key lo l = true) (hb : ∀ x ∈ l, key x < n) :
    l.length ≤ n - lo := by
  induction l generalizing lo with
  | nil => simp
  | cons y t ih =>
    simp only [sortedFrom, Bool.and_eq_true, decide_eq_true_eq] at hs
    have hy : key y < n := hb y (List.mem_cons_self y t)
    have ht := ih (key y + 1) hs.2 (fun x hx => hb x (List.mem_cons_of_mem y hx))
    simp only [List.length_cons]
    omega

/-- Errors of the output model (`Error` in the source; only the variants
the embedded slice can produce are modelled, with the payloads the claims
need). -/
inductive Error : Type
  | MissingAddressUnlockCondition : Error
  | UnallowedUnlockCondition (index : Nat) (kind : Nat) : Error
  | UnallowedFeature (index : Nat) (kind : Nat) : Error
  | InvalidOutputAmount (amount : Nat) : Error
  | InvalidTagFeatureLength (length : Nat) : Error
  | InvalidNativeTokenCount (count : Nat) : Error
  | InvalidAddressKind (kind : Nat) : Error
  | InvalidUnlockConditionKind (kind : Nat) : Error
  | InvalidFeatureKind (kind : Nat) : Error
  | UnlockConditionsNotUniqueSorted : Error
  | FeaturesNotUniqueSorted : Error
  | NativeTokensNotUniqueSorted : Error
  | InvalidMetadataFeatureLength (length : Nat) : Error
  | TruncatedBytes : Error
  | TrailingBytes : Error
  | Hex : Error
deriving DecidableEq, Repr

/-- A 32-byte alias identifier (`AliasId`; its code is outside the provided
sources, the fixed 32-byte length is from `AliasAddress::LENGTH =
AliasId::LENGTH` and the repository test asserting it equals 32). -/
abbrev AliasId : Type := {l : List Byte // l.length = 32}

/-- A 32-byte identifier for the other address kinds.  Modelled from the
spec: "fixed-length binary identifiers (address kinds, ...)". -/
abbrev Id32 : Type := {l : List Byte // l.length = 32}

/-- An alias address (`AliasAddress(AliasId)` from the source). -/
structure AliasAddress : Type where
  alias_id : AliasId
deriving DecidableEq, Repr

/-- The `Address` kind of an `AliasAddress` (source: `KIND = 8`). -/
def AliasAddress.KIND : Nat := 8

/-- The length in bytes of an `AliasAddress` (source: `LENGTH`). -/
def AliasAddress.LENGTH : Nat := 32

/-- Creates a new `AliasAddress` (source: `AliasAddress::new`). -/
def AliasAddress.new (id : AliasId) : AliasAddress := ⟨id⟩

/-- Modelled from the spec: "sum type over identity kinds (plain
cryptographic key hash, alias-controlled, NFT-controlled); each variant
wraps a fixed-length binary identifier".  Kind discriminants: Ed25519 `0`,
alias `8` (from the source), NFT `16`. -/
inductive Address : Type
  | ed25519 (pub_key_hash : Id32) : Address
  | aliasAddr (address : AliasAddress) : Address
  | nft (nft_id : Id32) : Address
deriving DecidableEq, Repr

/-- The one-byte kind discriminant of an address. -/
def Address.kind : Address → Nat
  | .ed25519 _ => 0
  | .aliasAddr _ => AliasAddress.KIND
  | .nft _ => 16

/-- Modelled from the spec: `UnlockCondition` — "sum type (address-gated,
storage-deposit-return, timelock, expiration, governor, state-controller,
immutable-alias-gated)"; payloads follow the wire layout (return address
plus a 64-bit amount for storage-deposit-return, 32-bit Unix timestamps
for timelock and expiration). -/
inductive UnlockCondition : Type
  | address (address : Address) : UnlockCondition
  | storageDepositReturn (return_address : Address) (amount : Fin (2 ^ 64)) : UnlockCondition
  | timelock (timestamp : Fin (2 ^ 32)) : UnlockCondition
  | expiration (return_address : Address) (timestamp : Fin (2 ^ 32)) : UnlockCondition
  | stateControllerAddress (address : Address) : UnlockCondition
  | governorAddress (address : Address) : UnlockCondition
  | immutableAliasAddress (address : AliasAddress) : UnlockCondition
deriving DecidableEq, Repr

/-- Modelled from the spec: "each variant's discriminant value is fixed by
the protocol"; discriminants follow the variant order `0..6`. -/
def UnlockCondition.kind : UnlockCondition → Nat
  | .address _ => 0
  | .storageDepositReturn _ _ => 1
  | .timelock _ => 2
  | .expiration _ _ => 3
  | .stateControllerAddress _ => 4
  | .governorAddress _ => 5
  | .immutableAliasAddress _ => 6

/-- A metadata payload, length-bounded.  Modelled from the spec: "Tag and
metadata payloads are length-bounded: minimum 1 byte, maximum
protocol-defined"; the metadata maximum is `8192`. -/
abbrev MetadataFeature : Type := {l : List Byte // 1 ≤ l.length ∧ l.length ≤ 8192}

/-- A tag payload, 1 to 64 bytes (source: `TagFeature`, a bounded boxed
slice over `TagFeature::LENGTH_RANGE`). -/
abbrev TagFeature : Type := {l : List Byte // 1 ≤ l.length ∧ l.length ≤ 64}

/-- The `Feature` kind of a `TagFeature` (source: `KIND = 3`). -/
def TagFeature.KIND : Nat := 3

/-- The valid payload lengths of a `TagFeature` (source:
`LENGTH_RANGE = 1..=64`). -/
def TagFeature.LENGTH_RANGE : Nat × Nat := (1, 64)

/-- Fallible conversion of a byte vector into a `TagFeature` (source:
`TryFrom<Vec<u8>> for TagFeature`: the bounded-slice conversion fails with
`Error::InvalidTagFeatureLength` outside the length range). -/
def TagFeature.try_from (tag : List Byte) : Except Error TagFeature :=
  if h : 1 ≤ tag.length ∧ tag.length ≤ 64 then .ok ⟨tag, h⟩
  else .error (.InvalidTagFeatureLength tag.length)

/-- Creates a new `TagFeature` (source: `TagFeature::new`, which delegates
to the `TryFrom` conversion). -/
def TagFeature.new (tag : List Byte) : Except Error TagFeature :=
  TagFeature.try_from tag

/-- Returns the tag payload (source: `TagFeature::tag`). -/
def TagFeature.tag (t : TagFeature) : List Byte := t.val

/-- Modelled from the spec: `Feature` — "sum type (sender, issuer,
metadata blob, tag blob)". -/
inductive Feature : Type
  | sender (address : Address) : Feature
  | issuer (address : Address) : Feature
  | metadata (data : MetadataFeature) : Feature
  | tag (t : TagFeature) : Feature
deriving DecidableEq, Repr

/-- Feature kind discriminants: sender `0`, issuer `1`, metadata `2`,
tag `3` (tag's value is `TagFeature::KIND` in the source). -/
def Feature.kind : Feature → Nat
  | .sender _ => 0
  | .issuer _ => 1
  | .metadata _ => 2
  | .tag _ => TagFeature.KIND

/-- Modelled from the spec: `NativeToken` — "(token identifier, 256-bit
amount) pair"; the token identifier is a fixed-length 38-byte foundry-bound
identifier. -/
structure NativeToken : Type where
  token_id : {l : List Byte // l.length = 38}
  amount : Fin (2 ^ 256)
deriving DecidableEq, Repr

/-- The sort key of a native token: its identifier read as a big-endian
number, so that the numeric order coincides with the lexicographic order
of the fixed-length identifier (spec: sets of native tokens are "kept
unique by identifier and sorted by identifier"). -/
def NativeToken.key (nt : NativeToken) : Nat :=
  bytesToNatLE nt.token_id.val.reverse

/-- The canonical unlock-condition collection: deduplicated by kind and
sorted by kind discriminant (the invariant of both the builder's
`BTreeSet<UnlockCondition>` and the finalized `UnlockConditions`). -/
abbrev UnlockConditions : Type :=
  {l : List UnlockCondition // sortedByKey UnlockCondition.kind l = true}

/-- The empty unlock-condition set (`BTreeSet::new`). -/
def UnlockConditions.empty : UnlockConditions := ⟨[], rfl⟩

/-- Inserts an unlock condition if none of that kind exists
(`BTreeSet::insert` under the by-kind order). -/
def UnlockConditions.insert (s : UnlockConditions) (x : UnlockCondition) : UnlockConditions :=
  ⟨insertByKey UnlockCondition.kind x s.val,
   sortedFrom_insertByKey UnlockCondition.kind x 0 s.val s.property (Nat.zero_le _)⟩

/-- Replaces the unlock condition of the same kind, or inserts it
(`BTreeSet::replace` under the by-kind order). -/
def UnlockConditions.replace (s : UnlockConditions) (x : UnlockCondition) : UnlockConditions :=
  ⟨replaceByKey UnlockCondition.kind x s.val,
   sortedFrom_replaceByKey UnlockCondition.kind x 0 s.val s.property (Nat.zero_le _)⟩

/-- Looks up the unlock condition of a given kind. -/
def UnlockConditions.get (s : UnlockConditions) (k : Nat) : Option UnlockCondition :=
  findByKey UnlockCondition.kind k s.val

/-- Returns the address unlock condition's address, if present
(`UnlockConditions::address`). -/
def UnlockConditions.address (s : UnlockConditions) : Option Address :=
  match UnlockConditions.get s 0 with
  | some (.address a) => some a
  | _ => none

/-- Modelled from the spec: "Finalization converts the working set into
the canonical sorted, deduplicated collection"; the working set already
carries that invariant, and the spec attaches no failure condition to this
conversion. -/
def UnlockConditions.from_set (s : UnlockConditions) : Except Error UnlockConditions :=
  .ok s

/-- The canonical feature collection, deduplicated and sorted by kind. -/
abbrev Features : Type := {l : List Feature // sortedByKey Feature.kind l = true}

/-- The empty feature set. -/
def Features.empty : Features := ⟨[], rfl⟩

/-- Inserts a feature if none of that kind exists. -/
def Features.insert (s : Features) (x : Feature) : Features :=
  ⟨insertByKey Feature.kind x s.val,
   sortedFrom_insertByKey Feature.kind x 0 s.val s.property (Nat.zero_le _)⟩

/-- Replaces the feature of the same kind, or inserts it. -/
def Features.replace (s : Features) (x : Feature) : Features :=
  ⟨replaceByKey Feature.kind x s.val,
   sortedFrom_replaceByKey Feature.kind x 0 s.val s.property (Nat.zero_le _)⟩

/-- Looks up the feature of a given kind. -/
def Features.get (s : Features) (k : Nat) : Option Feature :=
  findByKey Feature.kind k s.val

/-- Modelled from the spec: feature-set finalization, the same canonical
conversion as for unlock conditions, with no failure condition. -/
def Features.from_set (s : Features) : Except Error Features := .ok s

/-- Whether the feature set is empty (`Features::is_empty`). -/
def Features.is_empty (s : Features) : Bool := s.val.isEmpty

/-- The canonical native-token collection, unique and sorted by token
identifier. -/
abbrev NativeTokens : Type := {l : List NativeToken // sortedByKey NativeToken.key l = true}

/-- The empty native-token set. -/
def NativeTokens.empty : NativeTokens := ⟨[], rfl⟩

/-- Inserts a native token if none with that identifier exists. -/
def NativeTokens.insert (s : NativeTokens) (x : NativeToken) : NativeTokens :=
  ⟨insertByKey NativeToken.key x s.val,
   sortedFrom_insertByKey NativeToken.key x 0 s.val s.property (Nat.zero_le _)⟩

/-- Modelled from the spec: native-token-set finalization; the count must
fit the `u16` count prefix of the wire layout ("decoding must reject
out-of-range lengths", and encoding of a pre-validated value is assumed
well-formed). -/
def NativeTokens.from_set (s : NativeTokens) : Except Error NativeTokens :=
  if s.val.length ≤ 65535 then .ok s
  else .error (.InvalidNativeTokenCount s.val.length)

/-- Whether the native-token set is empty (`NativeTokens::is_empty`). -/
def NativeTokens.is_empty (s : NativeTokens) : Bool := s.val.isEmpty

/-- An allow-list of kind discriminants (`UnlockConditionFlags` /
`FeatureFlags` bitsets, modelled as the list of allowed kinds). -/
abbrev KindFlags : Type := List Nat

/-- Modelled from the spec: allow-list enforcement — each constraint-set
member outside the enclosing kind's allow-list is a policy error naming
the first offending member (`verify_allowed_unlock_conditions`). -/
def verify_allowed_unlock_conditions_from (index : Nat) (allowed : KindFlags) :
    List UnlockCondition → Except Error Unit
  | [] => .ok ()
  | uc :: t =>
    if uc.kind ∈ allowed then verify_allowed_unlock_conditions_from (index + 1) allowed t
    else .error (.UnallowedUnlockCondition index uc.kind)

/-- Checks every unlock condition against the allow-list. -/
def verify_allowed_unlock_conditions (ucs : UnlockConditions) (allowed : KindFlags) :
    Except Error Unit :=
  verify_allowed_unlock_conditions_from 0 allowed ucs.val

/-- Modelled from the spec: the feature counterpart of the allow-list
check (`verify_allowed_features`). -/
def verify_allowed_features_from (index : Nat) (allowed : KindFlags) :
    List Feature → Except Error Unit
  | [] => .ok ()
  | f :: t =>
    if f.kind ∈ allowed then verify_allowed_features_from (index + 1) allowed t
    else .error (.UnallowedFeature index f.kind)

/-- Checks every feature against the allow-list. -/
def verify_allowed_features (fs : Features) (allowed : KindFlags) : Except Error Unit :=
  verify_allowed_features_from 0 allowed fs.val

/-- The set of allowed unlock conditions for a `BasicOutput` (source:
`ALLOWED_UNLOCK_CONDITIONS` = address, storage-deposit-return, timelock,
expiration). -/
def BasicOutput.ALLOWED_UNLOCK_CONDITIONS : KindFlags := [0, 1, 2, 3]

/-- The set of allowed features for a `BasicOutput` (source:
`ALLOWED_FEATURES` = sender, metadata, tag). -/
def BasicOutput.ALLOWED_FEATURES : KindFlags := [0, 2, 3]

/-- Kind-specific unlock-condition verification of a basic output (source:
`verify_unlock_conditions`): with verification on, a missing address
unlock condition is `MissingAddressUnlockCondition`, otherwise the
allow-list is enforced. -/
def verify_unlock_conditions (verify : Bool) (unlock_conditions : UnlockConditions) :
    Except Error Unit :=
  if verify then
    match unlock_conditions.address with
    | none => .error .MissingAddressUnlockCondition
    | some _ => verify_allowed_unlock_conditions unlock_conditions
        BasicOutput.ALLOWED_UNLOCK_CONDITIONS
  else .ok ()

/-- Kind-specific feature verification of a basic output (source:
`verify_features`). -/
def verify_features (verify : Bool) (features : Features) : Except Error Unit :=
  if verify then verify_allowed_features features BasicOutput.ALLOWED_FEATURES
  else .ok ()

/-- Modelled from the spec: "fails if the resolved amount is zero or
exceeds `token_supply`" (`verify_output_amount`). -/
def verify_output_amount (verify : Bool) (amount : Nat) (token_supply : Nat) :
    Except Error Unit :=
  if verify && (decide (amount = 0) || decide (token_supply < amount)) then
    .error (.InvalidOutputAmount amount)
  else .ok ()

/-- Network rent parameters (spec: "byte cost, key-factor weight,
data-factor weight"; field names from the source's `RentStructure`). -/
structure RentStructure : Type where
  v_byte_cost : Nat
  v_byte_factor_key : Nat
  v_byte_factor_data : Nat
deriving DecidableEq, Repr

/-- Network protocol parameters; only the token supply is consulted by the
embedded slice.  The supply is a `u64` in the source, hence the bound. -/
structure ProtocolParameters : Type where
  token_supply : Nat
  token_supply_lt : token_supply < 2 ^ 64

/-- The amount policy of an output builder (source:
`OutputBuilderAmount`). -/
inductive OutputBuilderAmount : Type
  | Amount (amount : Nat) : OutputBuilderAmount
  | MinimumStorageDeposit (rent_structure : RentStructure) : OutputBuilderAmount

/-- A basic output (source: `BasicOutput`): amount, native tokens, unlock
conditions and features.  The amount is a `u64` in the source; it is
modelled as `Nat`, with the `u64` range enforced where the source enforces
it (against the token supply). -/
structure BasicOutput : Type where
  amount : Nat
  native_tokens : NativeTokens
  unlock_conditions : UnlockConditions
  features : Features
deriving DecidableEq

/-- The `Output` kind of a `BasicOutput` (source: `KIND = 3`). -/
def BasicOutput.KIND : Nat := 3

/-- Packs an address: one kind byte followed by the 32 identifier bytes
(spec: "each sum-type value is preceded by a one-byte kind
discriminant"). -/
def packAddress : Address → List Byte
  | .ed25519 h => (0 : Byte) :: h.val
  | .aliasAddr a => (8 : Byte) :: a.alias_id.val
  | .nft i => (16 : Byte) :: i.val

/-- Packs an unlock condition: kind byte, then its payload in fixed field
order (addresses in full, `u64` amounts and `u32` timestamps
little-endian). -/
def packUnlockCondition : UnlockCondition → List Byte
  | .address a => (0 : Byte) :: packAddress a
  | .storageDepositReturn ra amt => (1 : Byte) :: (packAddress ra ++ natToBytesLE 8 amt.val)
  | .timelock ts => (2 : Byte) :: natToBytesLE 4 ts.val
  | .expiration ra ts => (3 : Byte) :: (packAddress ra ++ natToBytesLE 4 ts.val)
  | .stateControllerAddress a => (4 : Byte) :: packAddress a
  | .governorAddress a => (5 : Byte) :: packAddress a
  | .immutableAliasAddress a => (6 : Byte) :: ((8 : Byte) :: a.alias_id.val)

/-- Packs a feature: kind byte, then its payload; variable-length payloads
are length-prefixed (`u16` for metadata, `u8` for tag). -/
def packFeature : Feature → List Byte
  | .sender a => (0 : Byte) :: packAddress a
  | .issuer a => (1 : Byte) :: packAddress a
  | .metadata d => (2 : Byte) :: (natToBytesLE 2 d.val.length ++ d.val)
  | .tag t => (3 : Byte) :: (natToBytesLE 1 t.val.length ++ t.val)

/-- Packs a native token: the 38 identifier bytes then the 256-bit amount
little-endian. -/
def packNativeToken (nt : NativeToken) : List Byte :=
  nt.token_id.val ++ natToBytesLE 32 nt.amount.val

/-- Concatenates the encodings of a sequence of items. -/
def packSeq {α : Type} (packItem : α → List Byte) : List α → List Byte
  | [] => []
  | x :: t => packItem x ++ packSeq packItem t

/-- Packs a basic output, with the wire layout of the spec:
`[amount:8 LE][native_token_count:u16][native_tokens...]
[unlock_condition_count:u8][unlock_conditions, sorted by kind]
[feature_count:u8][features, sorted by kind]` (the enclosing output-kind
byte belongs to the `Output` sum type, not to `BasicOutput`). -/
def BasicOutput.pack (o : BasicOutput) : List Byte :=
  natToBytesLE 8 o.amount ++
  natToBytesLE 2 o.native_tokens.val.length ++
  packSeq packNativeToken o.native_tokens.val ++
  natToBytesLE 1 o.unlock_conditions.val.length ++
  packSeq packUnlockCondition o.unlock_conditions.val ++
  natToBytesLE 1 o.features.val.length ++
  packSeq packFeature o.features.val

/-- The output sum type; only the basic variant belongs to the provided
slice (the other variants follow the same template, per the spec). -/
inductive Output : Type
  | basic (o : BasicOutput) : Output
deriving DecidableEq

/-- The number of bytes of an output on the wire: its kind byte followed
by its fields. -/
def Output.packed_len : Output → Nat
  | .basic o => 1 + o.pack.length

/-- Modelled from the spec: the rent key-byte footprint — the identifying
"key" bytes of an output are its fixed-size output identifier (a 34-byte
transaction id + index pair), which must remain indexable. -/
def Rent.KEY_BYTES : Nat := 34

/-- Modelled from the spec: "the minimum required amount is `byte_cost ×
(key_bytes × key_factor + data_bytes × data_factor)`", with the key bytes
the fixed output-identifier footprint and the data bytes the serialized
output record (`Rent::rent_cost`). -/
def Output.rent_cost (o : Output) (rent_structure : RentStructure) : Nat :=
  rent_structure.v_byte_cost *
    (rent_structure.v_byte_factor_key * Rent.KEY_BYTES +
     rent_structure.v_byte_factor_data * o.packed_len)

/-- Modelled from the spec: the verification-time rent check "that a
manually chosen amount is not below the floor". -/
def verify_storage_deposit (output : Output) (amount : Nat)
    (rent_structure : RentStructure) : Except Error Unit :=
  if amount < output.rent_cost rent_structure then
    .error (.InvalidOutputAmount amount)
  else .ok ()

/-- The basic-output builder (source: `BasicOutputBuilder`): an amount
policy plus working native-token, unlock-condition and feature sets. -/
structure BasicOutputBuilder : Type where
  amount : OutputBuilderAmount
  native_tokens : NativeTokens
  unlock_conditions : UnlockConditions
  features : Features

/-- Creates a builder (source: `BasicOutputBuilder::new`). -/
def BasicOutputBuilder.new (amount : OutputBuilderAmount) : BasicOutputBuilder :=
  ⟨amount, NativeTokens.empty, UnlockConditions.empty, Features.empty⟩

/-- Creates a builder with a provided amount (source:
`new_with_amount`). -/
def BasicOutputBuilder.new_with_amount (amount : Nat) : BasicOutputBuilder :=
  BasicOutputBuilder.new (.Amount amount)

/-- Creates a builder whose amount will be the minimum storage deposit
(source: `new_with_minimum_storage_deposit`). -/
def BasicOutputBuilder.new_with_minimum_storage_deposit
    (rent_structure : RentStructure) : BasicOutputBuilder :=
  BasicOutputBuilder.new (.MinimumStorageDeposit rent_structure)

/-- Sets the amount to the provided value (source: `with_amount`). -/
def BasicOutputBuilder.with_amount (b : BasicOutputBuilder) (amount : Nat) :
    BasicOutputBuilder :=
  { b with amount := .Amount amount }

/-- Sets the amount to the minimum storage deposit (source:
`with_minimum_storage_deposit`). -/
def BasicOutputBuilder.with_minimum_storage_deposit (b : BasicOutputBuilder)
    (rent_structure : RentStructure) : BasicOutputBuilder :=
  { b with amount := .MinimumStorageDeposit rent_structure }

/-- Adds a native token (source: `add_native_token`). -/
def BasicOutputBuilder.add_native_token (b : BasicOutputBuilder) (nt : NativeToken) :
    BasicOutputBuilder :=
  { b with native_tokens := b.native_tokens.insert nt }

/-- Adds an unlock condition, if one does not already exist of that type
(source: `add_unlock_condition`). -/
def BasicOutputBuilder.add_unlock_condition (b : BasicOutputBuilder)
    (uc : UnlockCondition) : BasicOutputBuilder :=
  { b with unlock_conditions := b.unlock_conditions.insert uc }

/-- Replaces an unlock condition of the builder with a new one, or adds it
(source: `replace_unlock_condition`). -/
def BasicOutputBuilder.replace_unlock_condition (b : BasicOutputBuilder)
    (uc : UnlockCondition) : BasicOutputBuilder :=
  { b with unlock_conditions := b.unlock_conditions.replace uc }

/-- Clears all unlock conditions (source: `clear_unlock_conditions`). -/
def BasicOutputBuilder.clear_unlock_conditions (b : BasicOutputBuilder) :
    BasicOutputBuilder :=
  { b with unlock_conditions := UnlockConditions.empty }

/-- Adds a feature, if one does not already exist of that type (source:
`add_feature`). -/
def BasicOutputBuilder.add_feature (b : BasicOutputBuilder) (f : Feature) :
    BasicOutputBuilder :=
  { b with features := b.features.insert f }

/-- Replaces a feature of the builder with a new one, or adds it (source:
`replace_feature`). -/
def BasicOutputBuilder.replace_feature (b : BasicOutputBuilder) (f : Feature) :
    BasicOutputBuilder :=
  { b with features := b.features.replace f }

/-- Clears all features (source: `clear_features`). -/
def BasicOutputBuilder.clear_features (b : BasicOutputBuilder) : BasicOutputBuilder :=
  { b with features := Features.empty }

/-- Finalizes the builder without the amount checks (source:
`finish_unverified`): finalize and verify the unlock conditions, finalize
and verify the features, finalize the native tokens, then resolve the
amount policy — an explicit amount is taken as is, the minimum-deposit
policy computes the rent cost of the output built with a placeholder
amount of `1`. -/
def BasicOutputBuilder.finish_unverified (b : BasicOutputBuilder) :
    Except Error BasicOutput := do
  let unlock_conditions ← UnlockConditions.from_set b.unlock_conditions
  let _ ← verify_unlock_conditions true unlock_conditions
  let features ← Features.from_set b.features
  let _ ← verify_features true features
  let native_tokens ← NativeTokens.from_set b.native_tokens
  let output : BasicOutput :=
    { amount := 1, native_tokens := native_tokens,
      unlock_conditions := unlock_conditions, features := features }
  let amount :=
    match b.amount with
    | .Amount amount => amount
    | .MinimumStorageDeposit rent_structure =>
      (Output.basic output).rent_cost rent_structure
  .ok { output with amount := amount }

/-- Finalizes the builder (source: `finish`): as `finish_unverified`, then
verify the resolved amount against the token supply. -/
def BasicOutputBuilder.finish (b : BasicOutputBuilder) (token_supply : Nat) :
    Except Error BasicOutput := do
  let output ← b.finish_unverified
  let _ ← verify_output_amount true output.amount token_supply
  .ok output

/-- Finalizes the builder into an `Output` (source: `finish_output`). -/
def BasicOutputBuilder.finish_output (b : BasicOutputBuilder) (token_supply : Nat) :
    Except Error Output := do
  let output ← b.finish token_supply
  .ok (Output.basic output)

/-- Rebuilds a builder from an existing output (source:
`From<&BasicOutput> for BasicOutputBuilder`). -/
def BasicOutputBuilder.from_output (output : BasicOutput) : BasicOutputBuilder :=
  ⟨.Amount output.amount, output.native_tokens, output.unlock_conditions,
   output.features⟩

/-- The address accessor (source: `BasicOutput::address`, which unwraps
`unlock_conditions().address()`; the possible panic of `unwrap` is
modelled by returning an `Option`). -/
def BasicOutput.address (o : BasicOutput) : Option Address :=
  o.unlock_conditions.address

/-- Returns the address of the unlock conditions if the output is a simple
deposit: only an address unlock condition, no native tokens and no
features (source: `simple_deposit_address`). -/
def BasicOutput.simple_deposit_address (o : BasicOutput) : Option Address :=
  match o.unlock_conditions.val with
  | [UnlockCondition.address a] =>
    if o.native_tokens.val.isEmpty && o.features.val.isEmpty then some a
    else none
  | _ => none

/-- Reads a `k`-byte little-endian unsigned integer off a stream, failing
on a short stream. -/
def readUInt (k : Nat) (s : List Byte) : Except Error (Nat × List Byte) :=
  if k ≤ s.length then .ok (bytesToNatLE (s.take k), s.drop k) else .error .TruncatedBytes

/-- Reads a 32-byte identifier. -/
def readId32 (s : List Byte) : Except Error (Id32 × List Byte) :=
  if h : 32 ≤ s.length then
    .ok (⟨s.take 32, by rw [List.length_take]; omega⟩, s.drop 32)
  else .error .TruncatedBytes

/-- Reads a 38-byte token identifier. -/
def readId38 (s : List Byte) : Except Error ({l : List Byte // l.length = 38} × List Byte) :=
  if h : 38 ≤ s.length then
    .ok (⟨s.take 38, by rw [List.length_take]; omega⟩, s.drop 38)
  else .error .TruncatedBytes

/-- Reads a 64-bit little-endian unsigned integer as a `Fin (2 ^ 64)`. -/
def readFin64 (s : List Byte) : Except Error (Fin (2 ^ 64) × List Byte) :=
  if h : 8 ≤ s.length then
    .ok (⟨bytesToNatLE (s.take 8), by
      have hlt := bytesToNatLE_lt (s.take 8)
      rw [List.length_take, Nat.min_eq_left h] at hlt
      exact hlt⟩, s.drop 8)
  else .error .TruncatedBytes

/-- Reads a 32-bit little-endian unsigned integer as a `Fin (2 ^ 32)`. -/
def readFin32 (s : List Byte) : Except Error (Fin (2 ^ 32) × List Byte) :=
  if h : 4 ≤ s.length then
    .ok (⟨bytesToNatLE (s.take 4), by
      have hlt := bytesToNatLE_lt (s.take 4)
      rw [List.length_take, Nat.min_eq_left h] at hlt
      exact hlt⟩, s.drop 4)
  else .error .TruncatedBytes

/-- Reads a 256-bit little-endian unsigned integer as a `Fin (2 ^ 256)`. -/
def readFin256 (s : List Byte) : Except Error (Fin (2 ^ 256) × List Byte) :=
  if h : 32 ≤ s.length then
    .ok (⟨bytesToNatLE (s.take 32), by
      have hlt := bytesToNatLE_lt (s.take 32)
      rw [List.length_take, Nat.min_eq_left h] at hlt
      exact hlt⟩, s.drop 32)
  else .error .TruncatedBytes

/-- Decodes an address: kind byte then identifier, rejecting unknown kind
discriminants (spec: "decoding must reject: unknown kind
discriminants"). -/
def readAddress (s : List Byte) : Except Error (Address × List Byte) :=
  match s with
  | [] => .error .TruncatedBytes
  | k :: rest =>
    if k.val = 0 then do
      let (i, r) ← readId32 rest
      .ok (.ed25519 i, r)
    else if k.val = 8 then do
      let (i, r) ← readId32 rest
      .ok (.aliasAddr ⟨i⟩, r)
    else if k.val = 16 then do
      let (i, r) ← readId32 rest
      .ok (.nft i, r)
    else .error (.InvalidAddressKind k.val)

/-- Decodes one unlock condition: kind byte then payload, rejecting
unknown kinds. -/
def readUnlockCondition (s : List Byte) : Except Error (UnlockCondition × List Byte) :=
  match s with
  | [] => .error .TruncatedBytes
  | k :: rest =>
    if k.val = 0 then do
      let (a, r) ← readAddress rest
      .ok (.address a, r)
    else if k.val = 1 then do
      let (ra, r1) ← readAddress rest
      let (amt, r2) ← readFin64 r1
      .ok (.storageDepositReturn ra amt, r2)
    else if k.val = 2 then do
      let (ts, r) ← readFin32 rest
      .ok (.timelock ts, r)
    else if k.val = 3 then do
      let (ra, r1) ← readAddress rest
      let (ts, r2) ← readFin32 r1
      .ok (.expiration ra ts, r2)
    else if k.val = 4 then do
      let (a, r) ← readAddress rest
      .ok (.stateControllerAddress a, r)
    else if k.val = 5 then do
      let (a, r) ← readAddress rest
      .ok (.governorAddress a, r)
    else if k.val = 6 then do
      let (a, r) ← readAddress rest
      match a with
      | .aliasAddr aa => .ok (.immutableAliasAddress aa, r)
      | other => .error (.InvalidAddressKind other.kind)
    else .error (.InvalidUnlockConditionKind k.val)

/-- Decodes one feature: kind byte then payload; variable-length payloads
have their length bounds re-checked (spec: "out-of-range lengths" are
rejected). -/
def readFeature (s : List Byte) : Except Error (Feature × List Byte) :=
  match s with
  | [] => .error .TruncatedBytes
  | k :: rest =>
    if k.val = 0 then do
      let (a, r) ← readAddress rest
      .ok (.sender a, r)
    else if k.val = 1 then do
      let (a, r) ← readAddress rest
      .ok (.issuer a, r)
    else if k.val = 2 then do
      let (len, r1) ← readUInt 2 rest
      if hb : 1 ≤ len ∧ len ≤ 8192 then
        if hl : len ≤ r1.length then
          .ok (.metadata ⟨r1.take len, by rw [List.length_take]; omega⟩, r1.drop len)
        else .error .TruncatedBytes
      else .error (.InvalidMetadataFeatureLength len)
    else if k.val = 3 then do
      let (len, r1) ← readUInt 1 rest
      if hb : 1 ≤ len ∧ len ≤ 64 then
        if hl : len ≤ r1.length then
          .ok (.tag ⟨r1.take len, by rw [List.length_take]; omega⟩, r1.drop len)
        else .error .TruncatedBytes
      else .error (.InvalidTagFeatureLength len)
    else .error (.InvalidFeatureKind k.val)

/-- Decodes one native token: token identifier then 256-bit amount. -/
def readNativeToken (s : List Byte) : Except Error (NativeToken × List Byte) := do
  let (i, r1) ← readId38 s
  let (amt, r2) ← readFin256 r1
  .ok (⟨i, amt⟩, r2)

/-- Reads `k` consecutive items with a given item decoder. -/
def readMany {α : Type} (readItem : List Byte → Except Error (α × List Byte)) :
    Nat → List Byte → Except Error (List α × List Byte)
  | 0, s => .ok ([], s)
  | k + 1, s => do
    let (x, s1) ← readItem s
    let (l, s2) ← readMany readItem k s1
    .ok (x :: l, s2)

/-- Re-checks the canonical order and kind-uniqueness of a decoded
unlock-condition sequence (spec: "decoding must reject ... duplicate
constraint-set member kinds" and requires the sets "sorted by kind
discriminant ascending"). -/
def UnlockConditions.from_list (l : List UnlockCondition) : Except Error UnlockConditions :=
  if h : sortedByKey UnlockCondition.kind l = true then .ok ⟨l, h⟩
  else .error .UnlockConditionsNotUniqueSorted

/-- The canonical-order re-check for decoded features. -/
def Features.from_list (l : List Feature) : Except Error Features :=
  if h : sortedByKey Feature.kind l = true then .ok ⟨l, h⟩
  else .error .FeaturesNotUniqueSorted

/-- The canonical-order re-check for decoded native tokens. -/
def NativeTokens.from_list (l : List NativeToken) : Except Error NativeTokens :=
  if h : sortedByKey NativeToken.key l = true then .ok ⟨l, h⟩
  else .error .NativeTokensNotUniqueSorted

/-- Decodes a basic output under protocol parameters (the derived
`unpack` of the source with its `verify_with` hooks): structural decoding
in fixed field order, with the amount check, the canonical-order and
duplicate checks on each constraint set, the kind-specific verification
hooks, and rejection of trailing bytes (`unpack_verified`). -/
def BasicOutput.unpack (s : List Byte) (params : ProtocolParameters) :
    Except Error BasicOutput := do
  let (amount, s1) ← readUInt 8 s
  let _ ← verify_output_amount true amount params.token_supply
  let (ntCount, s2) ← readUInt 2 s1
  let (ntList, s3) ← readMany readNativeToken ntCount s2
  let native_tokens ← NativeTokens.from_list ntList
  let (ucCount, s4) ← readUInt 1 s3
  let (ucList, s5) ← readMany readUnlockCondition ucCount s4
  let unlock_conditions ← UnlockConditions.from_list ucList
  let _ ← verify_unlock_conditions true unlock_conditions
  let (fCount, s6) ← readUInt 1 s5
  let (fList, s7) ← readMany readFeature fCount s6
  let features ← Features.from_list fList
  let _ ← verify_features true features
  if s7.isEmpty then
    .ok ⟨amount, native_tokens, unlock_conditions, features⟩
  else .error .TrailingBytes

/-- The lowercase hexadecimal digit of a value below 16: `0`–`9` for
values below ten, `a`–`f` for the rest. -/
def hexChar (n : Nat) : Char :=
  if n < 10 then Char.ofNat (48 + n) else Char.ofNat (87 + n)

/-- The value of a lowercase hexadecimal digit, if the character is one. -/
def hexVal (c : Char) : Option Nat :=
  if 48 ≤ c.toNat ∧ c.toNat ≤ 57 then some (c.toNat - 48)
  else if 97 ≤ c.toNat ∧ c.toNat ≤ 102 then some (c.toNat - 87)
  else none

/-- Lowercase hexadecimal encoding of a byte string, two digits per byte,
high nibble first. -/
def bytesToHex : List Byte → List Char
  | [] => []
  | b :: t => hexChar (b.val / 16) :: hexChar (b.val % 16) :: bytesToHex t

/-- Hexadecimal decoding of a character string back into bytes. -/
def hexToBytes : List Char → Option (List Byte)
  | [] => some []
  | [_] => none
  | c1 :: c2 :: t =>
    match hexVal c1, hexVal c2 with
    | some hi, some lo =>
      if h : hi < 16 ∧ lo < 16 then
        (hexToBytes t).map (fun r => (⟨hi * 16 + lo, by omega⟩ : Byte) :: r)
      else none
    | _, _ => none

/-- Modelled from the spec: the "fixed hex-with-prefix textual form" of an
alias address — `Display` prints the inner `AliasId` as `0x` followed by
64 lowercase hexadecimal digits. -/
def AliasAddress.to_string (a : AliasAddress) : List Char :=
  '0' :: 'x' :: bytesToHex a.alias_id.val

/-- Modelled from the spec: parsing the hex-with-prefix textual form
(`FromStr for AliasAddress`, which delegates to `AliasId::from_str`);
a missing `0x` prefix, a non-hex digit or a length other than 32 bytes is
a hex error. -/
def AliasAddress.from_str (s : List Char) : Except Error AliasAddress :=
  match s with
  | c1 :: c2 :: rest =>
    if c1 = '0' ∧ c2 = 'x' then
      match hexToBytes rest with
      | some bytes =>
        if h : bytes.length = 32 then .ok ⟨⟨bytes, h⟩⟩ else .error .Hex
      | none => .error .Hex
    else .error .Hex
  | _ => .error .Hex

theorem bind_ok {ε α β : Type} (x : α) (f : α → Except ε β) :
    (Except.ok x >>= f) = f x := rfl

theorem bind_error {ε α β : Type} (e : ε) (f : α → Except ε β) :
    ((Except.error e : Except ε α) >>= f) = Except.error e := rfl

theorem take_append_of_length {α : Type} (k : Nat) (l r : List α)
    (h : l.length = k) : (l ++ r).take k = l := by
  subst h; simp

theorem drop_append_of_length {α : Type} (k : Nat) (l r : List α)
    (h : l.length = k) : (l ++ r).drop k = r := by
  subst h; simp

theorem byteVal0 : ((0 : Byte)).val = 0 := rfl
theorem byteVal1 : ((1 : Byte)).val = 1 := rfl
theorem byteVal2 : ((2 : Byte)).val = 2 := rfl
theorem byteVal3 : ((3 : Byte)).val = 3 := rfl
theorem byteVal4 : ((4 : Byte)).val = 4 := rfl
theorem byteVal5 : ((5 : Byte)).val = 5 := rfl
theorem byteVal6 : ((6 : Byte)).val = 6 := rfl
theorem byteVal8 : ((8 : Byte)).val = 8 := rfl
theorem byteVal16 : ((16 : Byte)).val = 16 := rfl

theorem readUInt_append (k n : Nat) (r : List Byte) (h : n < 2 ^ (8 * k)) :
    readUInt k (natToBytesLE k n ++ r) = .ok (n, r) := by
  have hlen := natToBytesLE_length k n
  have h1 := take_append_of_length k (natToBytesLE k n) r hlen
  have h2 := drop_append_of_length k (natToBytesLE k n) r hlen
  have h3 : k ≤ (natToBytesLE k n ++ r).length := by
    rw [List.length_append, hlen]; omega
  simp [readUInt, h3, h1, h2, hlen, bytesToNatLE_natToBytesLE, Nat.mod_eq_of_lt h]

theorem readId32_append (i : Id32) (r : List Byte) :
    readId32 (i.val ++ r) = .ok (i, r) := by
  have h1 := take_append_of_length 32 i.val r i.property
  have h2 := drop_append_of_length 32 i.val r i.property
  have h3 : 32 ≤ (i.val ++ r).length := by
    rw [List.length_append, i.property]; omega
  simp [readId32, h3, h1, h2]

theorem readId38_append (i : {l : List Byte // l.length = 38}) (r : List Byte) :
    readId38 (i.val ++ r) = .ok (i, r) := by
  have h1 := take_append_of_length 38 i.val r i.property
  have h2 := drop_append_of_length 38 i.val r i.property
  have h3 : 38 ≤ (i.val ++ r).length := by
    rw [List.length_append, i.property]; omega
  simp [readId38, h3, h1, h2]

theorem readFin64_append (n : Fin (2 ^ 64)) (r : List Byte) :
    readFin64 (natToBytesLE 8 n.val ++ r) = .ok (n, r) := by
  have hlen := natToBytesLE_length 8 n.val
  have h1 := take_append_of_length 8 (natToBytesLE 8 n.val) r hlen
  have h2 := drop_append_of_length 8 (natToBytesLE 8 n.val) r hlen
  have h3 : 8 ≤ (natToBytesLE 8 n.val ++ r).length := by
    rw [List.length_append, hlen]; omega
  have h4 : bytesToNatLE (natToBytesLE 8 n.val) = n.val := by
    rw [bytesToNatLE_natToBytesLE]
    exact Nat.mod_eq_of_lt n.isLt
  simp [readFin64, h3, h1, h2, h4, hlen]

theorem readFin32_append (n : Fin (2 ^ 32)) (r : List Byte) :
    readFin32 (natToBytesLE 4 n.val ++ r) = .ok (n, r) := by
  have hlen := natToBytesLE_length 4 n.val
  have h1 := take_append_of_length 4 (natToBytesLE 4 n.val) r hlen
  have h2 := drop_append_of_length 4 (natToBytesLE 4 n.val) r hlen
  have h3 : 4 ≤ (natToBytesLE 4 n.val ++ r).length := by
    rw [List.length_append, hlen]; omega
  have h4 : bytesToNatLE (natToBytesLE 4 n.val) = n.val := by
    rw [bytesToNatLE_natToBytesLE]
    exact Nat.mod_eq_of_lt n.isLt
  simp [readFin32, h3, h1, h2, h4, hlen]

theorem readFin256_append (n : Fin (2 ^ 256)) (r : List Byte) :
    readFin256 (natToBytesLE 32 n.val ++ r) = .ok (n, r) := by
  have hlen := natToBytesLE_length 32 n.val
  have h1 := take_append_of_length 32 (natToBytesLE 32 n.val) r hlen
  have h2 := drop_append_of_length 32 (natToBytesLE 32 n.val) r hlen
  have h3 : 32 ≤ (natToBytesLE 32 n.val ++ r).length := by
    rw [List.length_append, hlen]; omega
  have h4 : bytesToNatLE (natToBytesLE 32 n.val) = n.val := by
    rw [bytesToNatLE_natToBytesLE]
    exact Nat.mod_eq_of_lt n.isLt
  simp [readFin256, h3, h1, h2, h4, hlen]

theorem readAddress_append (a : Address) (r : List Byte) :
    readAddress (packAddress a ++ r) = .ok (a, r) := by
  cases a with
  | ed25519 h =>
    simp [packAddress, readAddress, readId32_append, bind_ok, byteVal0]
  | aliasAddr a =>
    simp [packAddress, readAddress, readId32_append, bind_ok, byteVal8]
  | nft i =>
    simp [packAddress, readAddress, readId32_append, bind_ok, byteVal16]

theorem readUnlockCondition_append (uc : UnlockCondition) (r : List Byte) :
    readUnlockCondition (packUnlockCondition uc ++ r) = .ok (uc, r) := by
  cases uc with
  | address a =>
    simp [packUnlockCondition, readUnlockCondition, readAddress_append, bind_ok, byteVal0]
  | storageDepositReturn ra amt =>
    simp only [packUnlockCondition, List.cons_append, List.append_assoc]
    simp [readUnlockCondition, readAddress_append, readFin64_append, bind_ok, byteVal1]
  | timelock ts =>
    simp [packUnlockCondition, readUnlockCondition, readFin32_append, bind_ok, byteVal2]
  | expiration ra ts =>
    simp only [packUnlockCondition, List.cons_append, List.append_assoc]
    simp [readUnlockCondition, readAddress_append, readFin32_append, bind_ok, byteVal3]
  | stateControllerAddress a =>
    simp [packUnlockCondition, readUnlockCondition, readAddress_append, bind_ok, byteVal4]
  | governorAddress a =>
    simp [packUnlockCondition, readUnlockCondition, readAddress_append, bind_ok, byteVal5]
  | immutableAliasAddress a =>
    have ha : readAddress (packAddress (Address.aliasAddr a) ++ r) =
        .ok (Address.aliasAddr a, r) := readAddress_append (Address.aliasAddr a) r
    simp only [packAddress, List.cons_append] at ha
    simp [packUnlockCondition, readUnlockCondition, ha, bind_ok, byteVal6]

theorem readFeature_append (f : Feature) (r : List Byte) :
    readFeature (packFeature f ++ r) = .ok (f, r) := by
  cases f with
  | sender a =>
    simp [packFeature, readFeature, readAddress_append, bind_ok, byteVal0]
  | issuer a =>
    simp [packFeature, readFeature, readAddress_append, bind_ok, byteVal1]
  | metadata d =>
    have hb := d.property
    have hlt : d.val.length < 2 ^ (8 * 2) := by omega
    have hread := readUInt_append 2 d.val.length (d.val ++ r) hlt
    have h1 := take_append_of_length d.val.length d.val r rfl
    have h2 := drop_append_of_length d.val.length d.val r rfl
    have h3 : d.val.length ≤ (d.val ++ r).length := by
      rw [List.length_append]; omega
    simp only [packFeature, List.cons_append, List.append_assoc]
    simp [readFeature, hread, bind_ok, byteVal2, hb.1, hb.2, h3, h1, h2]
  | tag t =>
    have hb := t.property
    have hlt : t.val.length < 2 ^ (8 * 1) := by omega
    have hread := readUInt_append 1 t.val.length (t.val ++ r) hlt
    have h1 := take_append_of_length t.val.length t.val r rfl
    have h2 := drop_append_of_length t.val.length t.val r rfl
    have h3 : t.val.length ≤ (t.val ++ r).length := by
      rw [List.length_append]; omega
    simp only [packFeature, List.cons_append, List.append_assoc]
    simp [readFeature, hread, bind_ok, byteVal3, hb.1, hb.2, h3, h1, h2]

theorem readNativeToken_append (nt : NativeToken) (r : List Byte) :
    readNativeToken (packNativeToken nt ++ r) = .ok (nt, r) := by
  simp only [packNativeToken, List.append_assoc]
  simp [readNativeToken, readId38_append, readFin256_append, bind_ok]

theorem readMany_packSeq {α : Type} (readItem : List Byte → Except Error (α × List Byte))
    (packItem : α → List Byte) (l : List α) (r : List Byte)
    (hitem : ∀ x ∈ l, ∀ r2, readItem (packItem x ++ r2) = .ok (x, r2)) :
    readMany readItem l.length (packSeq packItem l ++ r) = .ok (l, r) := by
  induction l with
  | nil => simp [packSeq, readMany]
  | cons x t ih =>
    have hx := hitem x (List.mem_cons_self x t) (packSeq packItem t ++ r)
    have ht := ih (fun y hy r2 => hitem y (List.mem_cons_of_mem x hy) r2)
    simp only [packSeq, List.length_cons, List.append_assoc]
    simp [readMany, hx, ht, bind_ok]

theorem uc_kind_lt (uc : UnlockCondition) : uc.kind < 7 := by
  cases uc <;> simp [UnlockCondition.kind]

theorem feat_kind_lt (f : Feature) : f.kind < 4 := by
  cases f <;> simp [Feature.kind, TagFeature.KIND]

theorem uc_from_list_val (s : UnlockConditions) :
    UnlockConditions.from_list s.val = .ok s := by
  simp [UnlockConditions.from_list, s.property]

theorem feat_from_list_val (s : Features) :
    Features.from_list s.val = .ok s := by
  simp [Features.from_list, s.property]

theorem nt_from_list_val (s : NativeTokens) :
    NativeTokens.from_list s.val = .ok s := by
  simp [NativeTokens.from_list, s.property]

theorem uc_length_le (s : UnlockConditions) : s.val.length ≤ 7 := by
  have h := sortedFrom_length_le UnlockCondition.kind 7 0 s.val s.property
    (fun x _ => uc_kind_lt x)
  omega

theorem feat_length_le (s : Features) : s.val.length ≤ 4 := by
  have h := sortedFrom_length_le Feature.kind 4 0 s.val s.property
    (fun x _ => feat_kind_lt x)
  omega

/-- The pack/unpack round trip for any basic output satisfying the checks
that unpacking re-runs. -/
theorem BasicOutput.unpack_pack (o : BasicOutput) (params : ProtocolParameters)
    (hamt : o.amount < 2 ^ 64)
    (hv : verify_output_amount true o.amount params.token_supply = .ok ())
    (hucv : verify_unlock_conditions true o.unlock_conditions = .ok ())
    (hfv : verify_features true o.features = .ok ())
    (hntc : o.native_tokens.val.length ≤ 65535) :
    BasicOutput.unpack o.pack params = .ok o := by
  have hamt8 : o.amount < 2 ^ (8 * 8) := hamt
  have hnt_lt : o.native_tokens.val.length < 2 ^ (8 * 2) := by
    have : (2 : Nat) ^ (8 * 2) = 65536 := by norm_num
    omega
  have huc_lt : o.unlock_conditions.val.length < 2 ^ (8 * 1) := by
    have h7 := uc_length_le o.unlock_conditions
    have : (2 : Nat) ^ (8 * 1) = 256 := by norm_num
    omega
  have hf_lt : o.features.val.length < 2 ^ (8 * 1) := by
    have h4 := feat_length_le o.features
    have : (2 : Nat) ^ (8 * 1) = 256 := by norm_num
    omega
  have hntSeq : ∀ r2, readMany readNativeToken o.native_tokens.val.length
      (packSeq packNativeToken o.native_tokens.val ++ r2) = .ok (o.native_tokens.val, r2) :=
    fun r2 => readMany_packSeq _ _ _ r2 (fun x _ r3 => readNativeToken_append x r3)
  have hucSeq : ∀ r2, readMany readUnlockCondition o.unlock_conditions.val.length
      (packSeq packUnlockCondition o.unlock_conditions.val ++ r2) =
      .ok (o.unlock_conditions.val, r2) :=
    fun r2 => readMany_packSeq _ _ _ r2 (fun x _ r3 => readUnlockCondition_append x r3)
  have hfSeq : ∀ r2, readMany readFeature o.features.val.length
      (packSeq packFeature o.features.val ++ r2) = .ok (o.features.val, r2) :=
    fun r2 => readMany_packSeq _ _ _ r2 (fun x _ r3 => readFeature_append x r3)
  have hfSeqNil : readMany readFeature o.features.val.length
      (packSeq packFeature o.features.val ++ []) = .ok (o.features.val, []) := hfSeq []
  rw [List.append_nil] at hfSeqNil
  simp only [BasicOutput.pack]
  simp [BasicOutput.unpack, readUInt_append _ _ _ hamt8, readUInt_append _ _ _ hnt_lt,
    readUInt_append _ _ _ huc_lt, readUInt_append _ _ _ hf_lt,
    hntSeq, hucSeq, hfSeq, hfSeqNil, hv, hucv, hfv, bind_ok,
    uc_from_list_val, feat_from_list_val, nt_from_list_val]

/-- The amount the builder's policy resolves to: an explicit amount, or
the rent cost of the output built with the placeholder amount `1`. -/
def BasicOutputBuilder.resolved_amount (b : BasicOutputBuilder) : Nat :=
  match b.amount with
  | .Amount amount => amount
  | .MinimumStorageDeposit rent_structure =>
    (Output.basic ⟨1, b.native_tokens, b.unlock_conditions, b.features⟩).rent_cost
      rent_structure

theorem finish_unverified_ok_iff (b : BasicOutputBuilder) (o : BasicOutput) :
    b.finish_unverified = .ok o ↔
      (verify_unlock_conditions true b.unlock_conditions = .ok () ∧
       verify_features true b.features = .ok () ∧
       b.native_tokens.val.length ≤ 65535 ∧
       o = ⟨b.resolved_amount, b.native_tokens, b.unlock_conditions, b.features⟩) := by
  unfold BasicOutputBuilder.finish_unverified UnlockConditions.from_set Features.from_set
    NativeTokens.from_set BasicOutputBuilder.resolved_amount
  cases hu : verify_unlock_conditions true b.unlock_conditions with
  | error e => simp [bind_ok, bind_error, hu]
  | ok u =>
    cases hf : verify_features true b.features with
    | error e => simp [bind_ok, bind_error, hu, hf]
    | ok v =>
      by_cases hn : b.native_tokens.val.length ≤ 65535
      · simp [bind_ok, bind_error, hu, hf, hn, eq_comm]
      · simp [bind_ok, bind_error, hu, hf, hn]

theorem finish_ok_iff (b : BasicOutputBuilder) (token_supply : Nat) (o : BasicOutput) :
    b.finish token_supply = .ok o ↔
      (b.finish_unverified = .ok o ∧
       verify_output_amount true o.amount token_supply = .ok ()) := by
  unfold BasicOutputBuilder.finish
  cases hu : b.finish_unverified with
  | error e => simp [bind_ok, bind_error, hu]
  | ok o2 =>
    cases hv : verify_output_amount true o2.amount token_supply with
    | error e =>
      simp only [bind_ok]
      rw [hv]
      simp only [bind_error]
      constructor
      · intro h; cases h
      · rintro ⟨h1, h2⟩
        cases h1
        rw [hv] at h2
        cases h2
    | ok u =>
      simp only [bind_ok]
      rw [hv]
      simp only [bind_ok]
      constructor
      · intro h
        cases h
        exact ⟨rfl, by rw [hv]⟩
      · rintro ⟨h1, h2⟩
        cases h1
        rfl

theorem verify_output_amount_ok_iff (a ts : Nat) :
    verify_output_amount true a ts = .ok () ↔ (a ≠ 0 ∧ a ≤ ts) := by
  simp only [verify_output_amount, Bool.true_and]
  by_cases h0 : a = 0
  · simp [h0]
  · by_cases h1 : ts < a
    · simp [h0, h1]
    · simp [h0, h1]
      omega

/-- C1: for every `BasicOutput` produced through the verified construction
path (`BasicOutputBuilder.finish` under protocol parameters whose token
supply the amount satisfies), unpacking the bytes produced by `pack` with
those same parameters succeeds and yields a value equal to the output. -/
theorem C1_verified_pack_unpack_roundtrip (b : BasicOutputBuilder)
    (params : ProtocolParameters) (o : BasicOutput)
    (h : b.finish params.token_supply = .ok o) :
    BasicOutput.unpack o.pack params = .ok o := by
  rw [finish_ok_iff] at h
  obtain ⟨hfu, hv⟩ := h
  rw [finish_unverified_ok_iff] at hfu
  obtain ⟨hucv, hfv, hntc, ho⟩ := hfu
  have hle : o.amount ≤ params.token_supply := ((verify_output_amount_ok_iff _ _).mp hv).2
  have hlt : o.amount < 2 ^ 64 := lt_of_le_of_lt hle params.token_supply_lt
  subst ho
  exact BasicOutput.unpack_pack _ params hlt hv hucv hfv hntc

/-- A concrete Ed25519 address used by the witnesses. -/
def wAddr : Address := .ed25519 ⟨List.replicate 32 7, by simp⟩

/-- A concrete builder used by the C1 witness. -/
def wBuilder : BasicOutputBuilder :=
  (BasicOutputBuilder.new_with_amount 100).add_unlock_condition (.address wAddr)

/-- Concrete protocol parameters used by the witnesses. -/
def wParams : ProtocolParameters := ⟨1000, by norm_num⟩

/-- The concrete output the C1 witness builder produces. -/
def wOutput : BasicOutput :=
  ⟨100, NativeTokens.empty, UnlockConditions.empty.insert (.address wAddr), Features.empty⟩

/-- Witness for C1 at a concrete builder, parameters and output. -/
theorem C1_verified_pack_unpack_roundtrip_witness :
    BasicOutput.unpack wOutput.pack wParams = .ok wOutput :=
  C1_verified_pack_unpack_roundtrip wBuilder wParams wOutput (by rfl)

theorem BasicOutput.pack_length_amount (a1 a2 : Nat) (nts : NativeTokens)
    (ucs : UnlockConditions) (fs : Features) :
    (BasicOutput.mk a1 nts ucs fs).pack.length =
    (BasicOutput.mk a2 nts ucs fs).pack.length := by
  simp [BasicOutput.pack, natToBytesLE_length]

theorem rent_cost_amount_independent (a1 a2 : Nat) (nts : NativeTokens)
    (ucs : UnlockConditions) (fs : Features) (rs : RentStructure) :
    (Output.basic (BasicOutput.mk a1 nts ucs fs)).rent_cost rs =
    (Output.basic (BasicOutput.mk a2 nts ucs fs)).rent_cost rs := by
  simp [Output.rent_cost, Output.packed_len, BasicOutput.pack_length_amount a1 a2]

/-- C2: building with the minimum-storage-deposit policy yields an amount
exactly equal to the rent cost of the final output itself, and re-checking
that amount against the same rent structure's floor does not fail. -/
theorem C2_minimum_storage_deposit_amount (b : BasicOutputBuilder)
    (rent_structure : RentStructure) (o : BasicOutput)
    (hpol : b.amount = .MinimumStorageDeposit rent_structure)
    (h : b.finish_unverified = .ok o) :
    o.amount = (Output.basic o).rent_cost rent_structure ∧
    verify_storage_deposit (Output.basic o) o.amount rent_structure = .ok () := by
  rw [finish_unverified_ok_iff] at h
  obtain ⟨_, _, _, ho⟩ := h
  have hra : b.resolved_amount =
      (Output.basic (BasicOutput.mk 1 b.native_tokens b.unlock_conditions b.features)).rent_cost
        rent_structure := by
    simp [BasicOutputBuilder.resolved_amount, hpol]
  have hmain : o.amount = (Output.basic o).rent_cost rent_structure := by
    rw [ho]
    simp only [hra]
    exact rent_cost_amount_independent 1 b.resolved_amount b.native_tokens
      b.unlock_conditions b.features rent_structure
  refine ⟨hmain, ?_⟩
  simp [verify_storage_deposit, hmain]

/-- The concrete rent structure used by the C2 witness. -/
def wRent : RentStructure := ⟨1, 10, 1⟩

/-- The concrete minimum-deposit builder used by the C2 witness. -/
def wRentBuilder : BasicOutputBuilder :=
  (BasicOutputBuilder.new_with_minimum_storage_deposit wRent).add_unlock_condition
    (.address wAddr)

/-- The concrete output the C2 witness builder produces (rent cost
`1 * (10 * 34 + 1 * 47) = 387`). -/
def wRentOutput : BasicOutput :=
  ⟨387, NativeTokens.empty, UnlockConditions.empty.insert (.address wAddr), Features.empty⟩

/-- Witness for C2 at a concrete builder and rent structure. -/
theorem C2_minimum_storage_deposit_amount_witness :
    wRentOutput.amount = (Output.basic wRentOutput).rent_cost wRent ∧
    verify_storage_deposit (Output.basic wRentOutput) wRentOutput.amount wRent = .ok () :=
  C2_minimum_storage_deposit_amount wRentBuilder wRent wRentOutput (by rfl) (by rfl)

/-- The policy error category of the spec's error taxonomy: allow-list
violations and the missing required unlock condition. -/
def Error.is_policy : Error → Bool
  | .MissingAddressUnlockCondition => true
  | .UnallowedUnlockCondition _ _ => true
  | .UnallowedFeature _ _ => true
  | _ => false

theorem verify_allowed_uc_from_err_shape (idx : Nat) (allowed : KindFlags)
    (l : List UnlockCondition) (e : Error)
    (h : verify_allowed_unlock_conditions_from idx allowed l = .error e) :
    ∃ i k, e = .UnallowedUnlockCondition i k := by
  induction l generalizing idx with
  | nil => simp [verify_allowed_unlock_conditions_from] at h
  | cons uc t ih =>
    simp only [verify_allowed_unlock_conditions_from] at h
    by_cases hm : uc.kind ∈ allowed
    · rw [if_pos hm] at h
      exact ih (idx + 1) h
    · rw [if_neg hm] at h
      cases h
      exact ⟨idx, uc.kind, rfl⟩

theorem verify_allowed_feat_from_err_shape (idx : Nat) (allowed : KindFlags)
    (l : List Feature) (e : Error)
    (h : verify_allowed_features_from idx allowed l = .error e) :
    ∃ i k, e = .UnallowedFeature i k := by
  induction l generalizing idx with
  | nil => simp [verify_allowed_features_from] at h
  | cons f t ih =>
    simp only [verify_allowed_features_from] at h
    by_cases hm : f.kind ∈ allowed
    · rw [if_pos hm] at h
      exact ih (idx + 1) h
    · rw [if_neg hm] at h
      cases h
      exact ⟨idx, f.kind, rfl⟩

theorem verify_allowed_uc_from_err_exists (idx : Nat) (allowed : KindFlags)
    (l : List UnlockCondition)
    (h : ∃ uc ∈ l, uc.kind ∉ allowed) :
    ∃ e, verify_allowed_unlock_conditions_from idx allowed l = .error e ∧
      e.is_policy = true := by
  induction l generalizing idx with
  | nil => simp at h
  | cons uc t ih =>
    simp only [verify_allowed_unlock_conditions_from]
    by_cases hm : uc.kind ∈ allowed
    · rw [if_pos hm]
      obtain ⟨u, hu, hk⟩ := h
      cases List.mem_cons.mp hu with
      | inl he => exact absurd (he ▸ hm) hk
      | inr ht => exact ih (idx + 1) ⟨u, ht, hk⟩
    · rw [if_neg hm]
      exact ⟨.UnallowedUnlockCondition idx uc.kind, rfl, rfl⟩

theorem verify_allowed_feat_from_err_exists (idx : Nat) (allowed : KindFlags)
    (l : List Feature)
    (h : ∃ f ∈ l, f.kind ∉ allowed) :
    ∃ e, verify_allowed_features_from idx allowed l = .error e ∧
      e.is_policy = true := by
  induction l generalizing idx with
  | nil => simp at h
  | cons f t ih =>
    simp only [verify_allowed_features_from]
    by_cases hm : f.kind ∈ allowed
    · rw [if_pos hm]
      obtain ⟨u, hu, hk⟩ := h
      cases List.mem_cons.mp hu with
      | inl he => exact absurd (he ▸ hm) hk
      | inr ht => exact ih (idx + 1) ⟨u, ht, hk⟩
    · rw [if_neg hm]
      exact ⟨.UnallowedFeature idx f.kind, rfl, rfl⟩

theorem verify_unlock_conditions_err_policy (s : UnlockConditions) (e : Error)
    (h : verify_unlock_conditions true s = .error e) : e.is_policy = true := by
  simp only [verify_unlock_conditions, if_true] at h
  cases ha : s.address with
  | none => rw [ha] at h; cases h; rfl
  | some a =>
    rw [ha] at h
    obtain ⟨i, k, he⟩ := verify_allowed_uc_from_err_shape 0 _ s.val e h
    rw [he]; rfl

theorem verify_features_err_policy (s : Features) (e : Error)
    (h : verify_features true s = .error e) : e.is_policy = true := by
  simp only [verify_features, if_true] at h
  obtain ⟨i, k, he⟩ := verify_allowed_feat_from_err_shape 0 _ s.val e h
  rw [he]; rfl

theorem finish_unverified_err_of_uc (b : BasicOutputBuilder) (e : Error)
    (h : verify_unlock_conditions true b.unlock_conditions = .error e) :
    b.finish_unverified = .error e := by
  unfold BasicOutputBuilder.finish_unverified UnlockConditions.from_set
  simp [bind_ok, bind_error, h]

theorem finish_unverified_err_of_feat (b : BasicOutputBuilder) (e : Error)
    (huc : verify_unlock_conditions true b.unlock_conditions = .ok ())
    (h : verify_features true b.features = .error e) :
    b.finish_unverified = .error e := by
  unfold BasicOutputBuilder.finish_unverified UnlockConditions.from_set Features.from_set
  simp [bind_ok, bind_error, huc, h]

theorem finish_err_of_unverified (b : BasicOutputBuilder) (token_supply : Nat) (e : Error)
    (h : b.finish_unverified = .error e) : b.finish token_supply = .error e := by
  unfold BasicOutputBuilder.finish
  simp [bind_ok, bind_error, h]

/-- C3: finalization fails with the missing-address policy error when the
unlock-condition set has no address unlock condition, and fails with a
policy error when any unlock condition or feature outside the Basic
allow-lists is present — on both `finish_unverified` and `finish`. -/
theorem C3_allow_list_enforcement (b : BasicOutputBuilder) (token_supply : Nat) :
    (b.unlock_conditions.address = none →
      b.finish_unverified = .error .MissingAddressUnlockCondition ∧
      b.finish token_supply = .error .MissingAddressUnlockCondition) ∧
    ((∃ uc ∈ b.unlock_conditions.val,
        uc.kind ∉ BasicOutput.ALLOWED_UNLOCK_CONDITIONS) →
      (∃ e, b.finish_unverified = .error e ∧ e.is_policy = true) ∧
      (∃ e, b.finish token_supply = .error e ∧ e.is_policy = true)) ∧
    ((∃ f ∈ b.features.val, f.kind ∉ BasicOutput.ALLOWED_FEATURES) →
      (∃ e, b.finish_unverified = .error e ∧ e.is_policy = true) ∧
      (∃ e, b.finish token_supply = .error e ∧ e.is_policy = true)) := by
  refine ⟨?_, ?_, ?_⟩
  · intro ha
    have hv : verify_unlock_conditions true b.unlock_conditions =
        .error .MissingAddressUnlockCondition := by
      simp [verify_unlock_conditions, ha]
    have h1 := finish_unverified_err_of_uc b _ hv
    exact ⟨h1, finish_err_of_unverified b token_supply _ h1⟩
  · intro hex
    cases ha : b.unlock_conditions.address with
    | none =>
      have hv : verify_unlock_conditions true b.unlock_conditions =
          .error .MissingAddressUnlockCondition := by
        simp [verify_unlock_conditions, ha]
      have h1 := finish_unverified_err_of_uc b _ hv
      exact ⟨⟨_, h1, rfl⟩, ⟨_, finish_err_of_unverified b token_supply _ h1, rfl⟩⟩
    | some a =>
      obtain ⟨e, herr, hpol⟩ :=
        verify_allowed_uc_from_err_exists 0 BasicOutput.ALLOWED_UNLOCK_CONDITIONS
          b.unlock_conditions.val hex
      have hv : verify_unlock_conditions true b.unlock_conditions = .error e := by
        simp [verify_unlock_conditions, ha, verify_allowed_unlock_conditions, herr]
      have h1 := finish_unverified_err_of_uc b _ hv
      exact ⟨⟨e, h1, hpol⟩, ⟨e, finish_err_of_unverified b token_supply _ h1, hpol⟩⟩
  · intro hex
    cases hu : verify_unlock_conditions true b.unlock_conditions with
    | error e =>
      have hpol := verify_unlock_conditions_err_policy b.unlock_conditions e hu
      have h1 := finish_unverified_err_of_uc b _ hu
      exact ⟨⟨e, h1, hpol⟩, ⟨e, finish_err_of_unverified b token_supply _ h1, hpol⟩⟩
    | ok u =>
      cases u
      obtain ⟨e, herr, hpol⟩ :=
        verify_allowed_feat_from_err_exists 0 BasicOutput.ALLOWED_FEATURES
          b.features.val hex
      have hf : verify_features true b.features = .error e := by
        simp [verify_features, verify_allowed_features, herr]
      have h1 := finish_unverified_err_of_feat b _ hu hf
      exact ⟨⟨e, h1, hpol⟩, ⟨e, finish_err_of_unverified b token_supply _ h1, hpol⟩⟩

/-- A concrete builder with no unlock conditions at all. -/
def wNoAddrBuilder : BasicOutputBuilder := BasicOutputBuilder.new_with_amount 5

/-- A concrete builder with an address and a governor unlock condition. -/
def wGovBuilder : BasicOutputBuilder :=
  ((BasicOutputBuilder.new_with_amount 100).add_unlock_condition
    (.address wAddr)).add_unlock_condition (.governorAddress wAddr)

/-- Witness for C3: the missing-address case and the governor (allow-list)
case at concrete builders. -/
theorem C3_allow_list_enforcement_witness :
    (wNoAddrBuilder.finish_unverified = .error .MissingAddressUnlockCondition ∧
     wNoAddrBuilder.finish 1000 = .error .MissingAddressUnlockCondition) ∧
    ((∃ e, wGovBuilder.finish_unverified = .error e ∧ e.is_policy = true) ∧
     (∃ e, wGovBuilder.finish 1000 = .error e ∧ e.is_policy = true)) :=
  ⟨(C3_allow_list_enforcement wNoAddrBuilder 1000).1 (by rfl),
   (C3_allow_list_enforcement wGovBuilder 1000).2.1
     ⟨.governorAddress wAddr, by decide, by decide⟩⟩

theorem NativeTokens.from_set_error (s : NativeTokens) (e : Error)
    (h : NativeTokens.from_set s = .error e) :
    e = .InvalidNativeTokenCount s.val.length := by
  unfold NativeTokens.from_set at h
  by_cases hc : s.val.length ≤ 65535
  · rw [if_pos hc] at h; exact Except.noConfusion h
  · rw [if_neg hc] at h
    injection h with h2
    exact h2.symm

theorem finish_unverified_err_of_nt (b : BasicOutputBuilder) (e : Error)
    (huc : verify_unlock_conditions true b.unlock_conditions = .ok ())
    (hf : verify_features true b.features = .ok ())
    (h : NativeTokens.from_set b.native_tokens = .error e) :
    b.finish_unverified = .error e := by
  unfold BasicOutputBuilder.finish_unverified UnlockConditions.from_set Features.from_set
  simp [bind_ok, bind_error, huc, hf, h]

/-- C4 counterexample: `finish_unverified` on a builder with no unlock
conditions does fail with the missing-address policy error, refuting the
claim that the unverified path performs no allow-list validation. -/
theorem C4_counterexample :
    wNoAddrBuilder.finish_unverified = .error .MissingAddressUnlockCondition := by
  rfl

/-- C4 (amended): the unverified finalization path skips only the amount
validation — every `finish_unverified` failure is an allow-list/policy
error (including the missing-address error) or the native-token count
bound, never the economic amount error. -/
theorem C4_amended_unverified_error_kinds (b : BasicOutputBuilder) (e : Error)
    (h : b.finish_unverified = .error e) :
    e.is_policy = true ∨ (∃ c, e = .InvalidNativeTokenCount c) := by
  cases hu : verify_unlock_conditions true b.unlock_conditions with
  | error eu =>
    rw [finish_unverified_err_of_uc b eu hu] at h
    injection h with h2
    subst h2
    exact Or.inl (verify_unlock_conditions_err_policy _ _ hu)
  | ok u =>
    cases u
    cases hf : verify_features true b.features with
    | error ef =>
      rw [finish_unverified_err_of_feat b ef hu hf] at h
      injection h with h2
      subst h2
      exact Or.inl (verify_features_err_policy _ _ hf)
    | ok v =>
      cases v
      cases hn : NativeTokens.from_set b.native_tokens with
      | error en =>
        rw [finish_unverified_err_of_nt b en hu hf hn] at h
        injection h with h2
        subst h2
        exact Or.inr ⟨_, NativeTokens.from_set_error _ _ hn⟩
      | ok nts =>
        have hle : b.native_tokens.val.length ≤ 65535 := by
          unfold NativeTokens.from_set at hn
          by_cases hc : b.native_tokens.val.length ≤ 65535
          · exact hc
          · rw [if_neg hc] at hn; exact Except.noConfusion hn
        have hok := (finish_unverified_ok_iff b _).mpr ⟨hu, hf, hle, rfl⟩
        rw [hok] at h
        exact Except.noConfusion h

/-- Witness for the amended C4 at the concrete missing-address builder. -/
theorem C4_amended_unverified_error_kinds_witness :
    (Error.MissingAddressUnlockCondition).is_policy = true ∨
    (∃ c, Error.MissingAddressUnlockCondition = .InvalidNativeTokenCount c) :=
  C4_amended_unverified_error_kinds wNoAddrBuilder .MissingAddressUnlockCondition (by rfl)

theorem uc_insert_of_get (s : UnlockConditions) (x a : UnlockCondition)
    (h : s.get x.kind = some a) : s.insert x = s :=
  Subtype.ext (insertByKey_of_found UnlockCondition.kind x a 0 s.val s.property h)

theorem uc_get_replace (s : UnlockConditions) (x : UnlockCondition) :
    (s.replace x).get x.kind = some x :=
  findByKey_replaceByKey UnlockCondition.kind x s.val

theorem feat_insert_of_get (s : Features) (x a : Feature)
    (h : s.get x.kind = some a) : s.insert x = s :=
  Subtype.ext (insertByKey_of_found Feature.kind x a 0 s.val s.property h)

theorem feat_get_replace (s : Features) (x : Feature) :
    (s.replace x).get x.kind = some x :=
  findByKey_replaceByKey Feature.kind x s.val

/-- C5: on a builder already holding a feature of some kind with payload
`fA`, `add_feature` with a same-kind `fB` then finalizing leaves the
feature of that kind equal to `fA` (the add is a no-op on a duplicate
kind), while `replace_feature` with `fB` yields `fB`; likewise for
`add_unlock_condition` versus `replace_unlock_condition`. -/
theorem C5_add_vs_replace (b : BasicOutputBuilder) (fA fB : Feature)
    (ucA ucB : UnlockCondition) (hkf : fB.kind = fA.kind) (hku : ucB.kind = ucA.kind)
    (hfA : b.features.get fA.kind = some fA)
    (hucA : b.unlock_conditions.get ucA.kind = some ucA) :
    (∀ o, (b.add_feature fB).finish_unverified = .ok o →
      o.features.get fA.kind = some fA) ∧
    (∀ o, (b.replace_feature fB).finish_unverified = .ok o →
      o.features.get fA.kind = some fB) ∧
    (∀ o, (b.add_unlock_condition ucB).finish_unverified = .ok o →
      o.unlock_conditions.get ucA.kind = some ucA) ∧
    (∀ o, (b.replace_unlock_condition ucB).finish_unverified = .ok o →
      o.unlock_conditions.get ucA.kind = some ucB) := by
  have hfB : b.features.get fB.kind = some fA := by rw [hkf]; exact hfA
  have hucB : b.unlock_conditions.get ucB.kind = some ucA := by rw [hku]; exact hucA
  refine ⟨?_, ?_, ?_, ?_⟩
  · intro o h
    rw [finish_unverified_ok_iff] at h
    rw [h.2.2.2]
    show (b.add_feature fB).features.get fA.kind = some fA
    rw [BasicOutputBuilder.add_feature]
    simp only
    rw [feat_insert_of_get b.features fB fA hfB]
    exact hfA
  · intro o h
    rw [finish_unverified_ok_iff] at h
    rw [h.2.2.2]
    show (b.replace_feature fB).features.get fA.kind = some fB
    rw [BasicOutputBuilder.replace_feature]
    simp only
    rw [← hkf]
    exact feat_get_replace b.features fB
  · intro o h
    rw [finish_unverified_ok_iff] at h
    rw [h.2.2.2]
    show (b.add_unlock_condition ucB).unlock_conditions.get ucA.kind = some ucA
    rw [BasicOutputBuilder.add_unlock_condition]
    simp only
    rw [uc_insert_of_get b.unlock_conditions ucB ucA hucB]
    exact hucA
  · intro o h
    rw [finish_unverified_ok_iff] at h
    rw [h.2.2.2]
    show (b.replace_unlock_condition ucB).unlock_conditions.get ucA.kind = some ucB
    rw [BasicOutputBuilder.replace_unlock_condition]
    simp only
    rw [← hku]
    exact uc_get_replace b.unlock_conditions ucB

/-- A second concrete Ed25519 address, distinct from `wAddr`. -/
def wAddr2 : Address := .ed25519 ⟨List.replicate 32 9, by simp⟩

/-- A concrete builder holding an address unlock condition and a sender
feature with payload `wAddr`. -/
def wC5Builder : BasicOutputBuilder := wBuilder.add_feature (.sender wAddr)

/-- The output of the C5 add paths (feature and unlock condition kept). -/
def wC5Out : BasicOutput :=
  ⟨100, NativeTokens.empty, UnlockConditions.empty.insert (.address wAddr),
   Features.empty.insert (.sender wAddr)⟩

/-- The output of the C5 replace-feature path (sender becomes `wAddr2`). -/
def wC5RepFeatOut : BasicOutput :=
  ⟨100, NativeTokens.empty, UnlockConditions.empty.insert (.address wAddr),
   Features.empty.insert (.sender wAddr2)⟩

/-- The output of the C5 replace-unlock-condition path. -/
def wC5RepUcOut : BasicOutput :=
  ⟨100, NativeTokens.empty, UnlockConditions.empty.insert (.address wAddr2),
   Features.empty.insert (.sender wAddr)⟩

/-- Witness for C5 at concrete builders, features and unlock conditions. -/
theorem C5_add_vs_replace_witness :
    wC5Out.features.get (Feature.sender wAddr).kind = some (.sender wAddr) ∧
    wC5RepFeatOut.features.get (Feature.sender wAddr).kind = some (.sender wAddr2) ∧
    wC5Out.unlock_conditions.get (UnlockCondition.address wAddr).kind =
      some (.address wAddr) ∧
    wC5RepUcOut.unlock_conditions.get (UnlockCondition.address wAddr).kind =
      some (.address wAddr2) := by
  have h := C5_add_vs_replace wC5Builder (.sender wAddr) (.sender wAddr2)
    (.address wAddr) (.address wAddr2) (by rfl) (by rfl) (by rfl) (by rfl)
  exact ⟨h.1 wC5Out (by rfl), h.2.1 wC5RepFeatOut (by rfl),
    h.2.2.1 wC5Out (by rfl), h.2.2.2 wC5RepUcOut (by rfl)⟩

/-- C6: when `finish_unverified` succeeds with resolved amount `a`,
`finish(token_supply)` fails with the economic amount error exactly when
`a = 0` or `a > token_supply`, and otherwise returns the very output
`finish_unverified` produced. -/
theorem C6_finish_amount_gate (b : BasicOutputBuilder) (token_supply : Nat)
    (o : BasicOutput) (h : b.finish_unverified = .ok o) :
    b.finish token_supply =
      (if o.amount = 0 ∨ token_supply < o.amount then
        .error (.InvalidOutputAmount o.amount)
      else .ok o) := by
  unfold BasicOutputBuilder.finish
  rw [h, bind_ok]
  by_cases h0 : o.amount = 0 ∨ token_supply < o.amount
  · rw [if_pos h0]
    have hv : verify_output_amount true o.amount token_supply =
        .error (.InvalidOutputAmount o.amount) := by
      unfold verify_output_amount
      rcases h0 with h0 | h0 <;> simp [h0]
    rw [hv, bind_error]
  · rw [if_neg h0]
    push_neg at h0
    have hv : verify_output_amount true o.amount token_supply = .ok () := by
      unfold verify_output_amount
      simp [h0.1, h0.2]
    rw [hv, bind_ok]

/-- Witness for C6 at the concrete C1 builder and output. -/
theorem C6_finish_amount_gate_witness :
    wBuilder.finish 1000 =
      (if wOutput.amount = 0 ∨ 1000 < wOutput.amount then
        .error (.InvalidOutputAmount wOutput.amount)
      else .ok wOutput) :=
  C6_finish_amount_gate wBuilder 1000 wOutput (by rfl)

theorem isEmpty_false_of_ne_nil {α : Type} (l : List α) (h : l ≠ []) :
    l.isEmpty = false := by
  cases h2 : l.isEmpty with
  | false => rfl
  | true => exact absurd (List.isEmpty_iff.mp h2) h

/-- C7: `simple_deposit_address` is a pure classification — it returns the
address exactly when the unlock-condition set is a single address unlock
condition and the output has no native tokens and no features, and `none`
in every other shape. -/
theorem C7_simple_deposit_classification (o : BasicOutput) (addr : Address) :
    o.simple_deposit_address = some addr ↔
      (o.unlock_conditions.val = [.address addr] ∧
       o.native_tokens.val = [] ∧ o.features.val = []) := by
  rcases hl : o.unlock_conditions.val with _ | ⟨uc, t⟩
  · simp [BasicOutput.simple_deposit_address, hl]
  · cases t with
    | nil =>
      cases uc with
      | address a =>
        by_cases hnt : o.native_tokens.val = []
        · by_cases hf : o.features.val = []
          · simp [BasicOutput.simple_deposit_address, hl, hnt, hf]
          · simp [BasicOutput.simple_deposit_address, hl, hnt, hf,
              isEmpty_false_of_ne_nil o.features.val hf]
        · simp [BasicOutput.simple_deposit_address, hl, hnt,
            isEmpty_false_of_ne_nil o.native_tokens.val hnt]
      | storageDepositReturn ra amt => simp [BasicOutput.simple_deposit_address, hl]
      | timelock ts => simp [BasicOutput.simple_deposit_address, hl]
      | expiration ra ts => simp [BasicOutput.simple_deposit_address, hl]
      | stateControllerAddress a => simp [BasicOutput.simple_deposit_address, hl]
      | governorAddress a => simp [BasicOutput.simple_deposit_address, hl]
      | immutableAliasAddress a => simp [BasicOutput.simple_deposit_address, hl]
    | cons uc2 t2 =>
      cases uc <;> simp [BasicOutput.simple_deposit_address, hl]

/-- Witness for C7: the concrete single-address output classifies as a
simple deposit with that address. -/
theorem C7_simple_deposit_classification_witness :
    wOutput.simple_deposit_address = some wAddr :=
  (C7_simple_deposit_classification wOutput wAddr).mpr ⟨by rfl, rfl, rfl⟩

/-- C8: `TagFeature` construction succeeds exactly for payloads of 1 to 64
bytes, storing the input bytes unchanged, and fails with the
invalid-tag-length error outside that range. -/
theorem C8_tag_length_bounds (tag : List Byte) :
    (1 ≤ tag.length ∧ tag.length ≤ 64 →
      ∃ t, TagFeature.new tag = .ok t ∧ t.tag = tag) ∧
    (tag.length = 0 ∨ 64 < tag.length →
      TagFeature.new tag = .error (.InvalidTagFeatureLength tag.length)) := by
  constructor
  · intro h
    refine ⟨⟨tag, h⟩, ?_, rfl⟩
    simp [TagFeature.new, TagFeature.try_from, h]
  · intro h
    have hn : ¬(1 ≤ tag.length ∧ tag.length ≤ 64) := by omega
    simp [TagFeature.new, TagFeature.try_from, hn]

/-- Witness for C8 at payloads of 1, 64, 0 and 65 bytes. -/
theorem C8_tag_length_bounds_witness :
    (∃ t, TagFeature.new (List.replicate 1 (0 : Byte)) = .ok t ∧
      t.tag = List.replicate 1 (0 : Byte)) ∧
    (∃ t, TagFeature.new (List.replicate 64 (0 : Byte)) = .ok t ∧
      t.tag = List.replicate 64 (0 : Byte)) ∧
    TagFeature.new [] = .error (.InvalidTagFeatureLength 0) ∧
    TagFeature.new (List.replicate 65 (0 : Byte)) =
      .error (.InvalidTagFeatureLength 65) := by
  refine ⟨(C8_tag_length_bounds _).1 (by simp), (C8_tag_length_bounds _).1 (by simp),
    ?_, ?_⟩
  · have h := (C8_tag_length_bounds ([] : List Byte)).2 (by simp)
    simpa using h
  · have h := (C8_tag_length_bounds (List.replicate 65 (0 : Byte))).2 (by simp)
    simpa using h

theorem hexVal_hexChar (n : Nat) (h : n < 16) : hexVal (hexChar n) = some n := by
  interval_cases n <;> rfl

theorem hexToBytes_bytesToHex (l : List Byte) : hexToBytes (bytesToHex l) = some l := by
  induction l with
  | nil => rfl
  | cons b t ih =>
    have hb := b.isLt
    have hdiv : b.val / 16 < 16 := by omega
    have hmod : b.val % 16 < 16 := by omega
    simp only [bytesToHex, hexToBytes, hexVal_hexChar _ hdiv, hexVal_hexChar _ hmod]
    rw [dif_pos ⟨hdiv, hmod⟩, ih]
    simp only [Option.map_some']
    congr 1
    apply List.cons_eq_cons.mpr
    refine ⟨?_, rfl⟩
    apply Fin.ext
    show b.val / 16 * 16 + b.val % 16 = b.val
    omega

/-- C9: the hex-with-prefix textual form of an alias address round-trips —
parsing the printed form yields the original address. -/
theorem C9_alias_address_textual_roundtrip (a : AliasAddress) :
    AliasAddress.from_str a.to_string = .ok a := by
  simp [AliasAddress.to_string, AliasAddress.from_str, hexToBytes_bytesToHex,
    a.alias_id.property]

theorem unpack_ok_verify (s : List Byte) (params : ProtocolParameters) (o : BasicOutput)
    (h : BasicOutput.unpack s params = .ok o) :
    verify_unlock_conditions true o.unlock_conditions = .ok () := by
  unfold BasicOutput.unpack at h
  cases h1 : readUInt 8 s with
  | error e => simp [h1, bind_error] at h
  | ok p1 =>
  obtain ⟨amount, s1⟩ := p1
  simp only [h1, bind_ok] at h
  cases h2 : verify_output_amount true amount params.token_supply with
  | error e => simp [h2, bind_error] at h
  | ok u0 =>
  cases u0
  simp only [h2, bind_ok] at h
  cases h3 : readUInt 2 s1 with
  | error e => simp [h3, bind_error] at h
  | ok p2 =>
  obtain ⟨ntCount, s2⟩ := p2
  simp only [h3, bind_ok] at h
  cases h4 : readMany readNativeToken ntCount s2 with
  | error e => simp [h4, bind_error] at h
  | ok p3 =>
  obtain ⟨ntList, s3⟩ := p3
  simp only [h4, bind_ok] at h
  cases h5 : NativeTokens.from_list ntList with
  | error e => simp [h5, bind_error] at h
  | ok native_tokens =>
  simp only [h5, bind_ok] at h
  cases h6 : readUInt 1 s3 with
  | error e => simp [h6, bind_error] at h
  | ok p4 =>
  obtain ⟨ucCount, s4⟩ := p4
  simp only [h6, bind_ok] at h
  cases h7 : readMany readUnlockCondition ucCount s4 with
  | error e => simp [h7, bind_error] at h
  | ok p5 =>
  obtain ⟨ucList, s5⟩ := p5
  simp only [h7, bind_ok] at h
  cases h8 : UnlockConditions.from_list ucList with
  | error e => simp [h8, bind_error] at h
  | ok unlock_conditions =>
  simp only [h8, bind_ok] at h
  cases h9 : verify_unlock_conditions true unlock_conditions with
  | error e => simp [h9, bind_error] at h
  | ok u1 =>
  cases u1
  simp only [h9, bind_ok] at h
  cases h10 : readUInt 1 s5 with
  | error e => simp [h10, bind_error] at h
  | ok p6 =>
  obtain ⟨fCount, s6⟩ := p6
  simp only [h10, bind_ok] at h
  cases h11 : readMany readFeature fCount s6 with
  | error e => simp [h11, bind_error] at h
  | ok p7 =>
  obtain ⟨fList, s7⟩ := p7
  simp only [h11, bind_ok] at h
  cases h12 : Features.from_list fList with
  | error e => simp [h12, bind_error] at h
  | ok features =>
  simp only [h12, bind_ok] at h
  cases h13 : verify_features true features with
  | error e => simp [h13, bind_error] at h
  | ok u2 =>
  cases u2
  simp only [h13, bind_ok] at h
  cases h14 : s7.isEmpty with
  | false => simp [h14] at h
  | true =>
  simp only [h14, if_true] at h
  injection h with h15
  rw [← h15]
  exact h9

/-- C10: every basic output produced by `finish_unverified`, `finish` or a
successful verified `unpack` carries an address unlock condition, so the
`address` accessor is total on such values (its `unwrap` cannot panic). -/
theorem C10_address_accessor_total (b : BasicOutputBuilder) (token_supply : Nat)
    (params : ProtocolParameters) (s : List Byte) (o : BasicOutput)
    (h : b.finish_unverified = .ok o ∨ b.finish token_supply = .ok o ∨
      BasicOutput.unpack s params = .ok o) :
    o.address.isSome = true := by
  have hv : verify_unlock_conditions true o.unlock_conditions = .ok () := by
    rcases h with h | h | h
    · rw [finish_unverified_ok_iff] at h
      obtain ⟨huc, _, _, ho⟩ := h
      rw [ho]
      exact huc
    · rw [finish_ok_iff] at h
      obtain ⟨hfu, _⟩ := h
      rw [finish_unverified_ok_iff] at hfu
      obtain ⟨huc, _, _, ho⟩ := hfu
      rw [ho]
      exact huc
    · exact unpack_ok_verify s params o h
  unfold verify_unlock_conditions at hv
  cases ha : o.unlock_conditions.address with
  | none => simp [ha] at hv
  | some a => simp [BasicOutput.address, ha]

/-- Witness for C10 at the concrete C1 builder and output. -/
theorem C10_address_accessor_total_witness : wOutput.address.isSome = true :=
  C10_address_accessor_total wBuilder 1000 wParams [] wOutput (Or.inl (by rfl))
